import Mathlib

/-!
# rs-dlib-cv: depth-guided background removal

A shallow embedding of `rs-dlib-cv.cpp`:

* `F32`: the C++ type `float` (IEEE-754 binary32, round to nearest, ties to even),
  as far as the program uses it (multiplication, addition, ordered comparisons);
* `remove_background`: the two nested loops over the colour buffer, with the
  `int` index and offset arithmetic of the loops (a buffer overrun or an `int`
  overflow is undefined behaviour, modelled by `none`);
* `find_stream_to_align`: the choice of the stream depth is aligned to;
* `frame_clipping_arg`: the part of the per-frame loop of `main` that computes
  the fourth argument of `remove_background`.
-/

namespace RsDlibCv

/-! ## The type `float` -/

/-- A binary32 datum. `fin neg m e` stands for `(-1)^neg * m * 2^(e - 149)`:
the exponent is counted from the weight `2^-149` of the last subnormal bit, so
every finite binary32 number is `fin neg m e` with `m < 2^24` and
`m * 2^e < 2^277`. Several terms can stand for one number (`fin false 2 0` and
`fin false 1 1`); the operations below depend on the number only. -/
inductive F32 where
  | nan : F32
  | inf (neg : Bool) : F32
  | fin (neg : Bool) (m : Nat) (e : Nat) : F32
  deriving DecidableEq, Repr

namespace F32

/-- Number of binary digits of `n` (0 for 0), computed by halving; the first
argument bounds the number of halvings. -/
def bitLengthAux : Nat → Nat → Nat
  | 0, _ => 0
  | fuel + 1, n => if n = 0 then 0 else bitLengthAux fuel (n / 2) + 1

/-- Number of binary digits of `n`: the least `b` with `n < 2^b`. -/
def bitLength (n : Nat) : Nat := bitLengthAux n n

/-- The terms that stand for a binary32 number: at most 24 significant bits,
magnitude below `2^128`. -/
def valid : F32 → Bool
  | nan => true
  | inf _ => true
  | fin _ m e => decide (m < 2 ^ 24) && decide (bitLength m + e ≤ 277)

/-- Neither a NaN nor an infinity. -/
def isFinite : F32 → Bool
  | fin _ _ _ => true
  | _ => false

/-- The literal `0.f`. -/
def zero : F32 := fin false 0 0

/-- The literal `10.0f`, which is `5 * 2^1`. -/
def ten : F32 := fin false 5 150

/-- The literal `0.30f`, the binary32 number nearest to 3/10: `10066330 * 2^-25`
(bit pattern `0x3e99999a`). -/
def margin : F32 := fin false 10066330 124

/-- Conversion of a `uint16_t` to `float`: exact, the value has at most 16 bits. -/
def ofUInt16 (n : Nat) : F32 := fin false (n % 65536) 149

/-- Rounding to nearest, ties to even, of the exact magnitude `M * 2^x` (in units
of `2^-149`). The result keeps the 24 leading bits of `M` but no bit of weight
below `2^-149`: `s` low bits are dropped when `s > 0`, and when `s ≤ 0` the
magnitude is representable as it is and is only rescaled. A magnitude that
rounds to `2^128` or more becomes an infinity. -/
def round (neg : Bool) (M : Nat) (x : Int) : F32 :=
  if M = 0 then fin neg 0 0
  else
    let s : Int := max ((bitLength M : Int) - 24) (-x)
    let k := s.toNat
    let q := M * 2 ^ (-s).toNat / 2 ^ k
    let r := M % 2 ^ k
    let m := if 2 ^ k < 2 * r ∨ (2 * r = 2 ^ k ∧ q % 2 = 1) then q + 1 else q
    let e := (x + s).toNat
    if 278 ≤ bitLength m + e then inf neg
    else if m = 2 ^ 24 then fin neg (2 ^ 23) (e + 1)
    else fin neg m e

/-- The operator `*` on `float`. -/
def mul : F32 → F32 → F32
  | nan, _ => nan
  | _, nan => nan
  | inf s, inf t => inf (xor s t)
  | inf s, fin t n _ => if n = 0 then nan else inf (xor s t)
  | fin s m _, inf t => if m = 0 then nan else inf (xor s t)
  | fin s m e, fin t n f => round (xor s t) (m * n) ((e : Int) + (f : Int) - 149)

/-- The operator `+` on `float`. The exact sum of two opposite numbers is `+0`. -/
def add : F32 → F32 → F32
  | nan, _ => nan
  | _, nan => nan
  | inf s, inf t => if s = t then inf s else nan
  | inf s, fin _ _ _ => inf s
  | fin _ _ _, inf t => inf t
  | fin s m e, fin t n f =>
    let g := min e f
    let a := m * 2 ^ (e - g)
    let b := n * 2 ^ (f - g)
    if s = t then round s (a + b) g
    else if a = b then fin false 0 0
    else if b < a then round s (a - b) g
    else round t (b - a) g

/-- The signed magnitude of a finite datum, in units of `2^-149`. -/
def sval (neg : Bool) (m e : Nat) : Int :=
  if neg then -((m * 2 ^ e : Nat) : Int) else ((m * 2 ^ e : Nat) : Int)

/-- The operator `<=` on `float`: false as soon as one side is a NaN. -/
def le : F32 → F32 → Bool
  | nan, _ => false
  | _, nan => false
  | inf s, inf t => s || !t
  | inf s, fin _ _ _ => s
  | fin _ _ _, inf t => !t
  | fin s m e, fin t n f => decide (sval s m e ≤ sval t n f)

/-- The operator `<` on `float`: false as soon as one side is a NaN. -/
def lt : F32 → F32 → Bool
  | nan, _ => false
  | _, nan => false
  | inf s, inf t => s && !t
  | inf s, fin _ _ _ => s
  | fin _ _ _, inf t => !t
  | fin s m e, fin t n f => decide (sval s m e < sval t n f)

/-- The operator `>` on `float`. -/
def gt (a b : F32) : Bool := lt b a

end F32

/-! ## The frames -/

/-- The part of `rs2::video_frame` that `remove_background` uses: `get_width()`,
`get_height()`, `get_bytes_per_pixel()` and the bytes behind `get_data()`. -/
structure video_frame where
  width : Nat
  height : Nat
  bytes_per_pixel : Nat
  data : List Nat
  deriving DecidableEq, Repr

/-- The part of `rs2::depth_frame` that the program uses: its dimensions and the
`uint16_t` samples behind `get_data()`. -/
structure depth_frame where
  width : Nat
  height : Nat
  data : List Nat
  deriving DecidableEq, Repr

/-- The call `std::memset(&p[offset], value, count)` on a buffer of `p.length`
bytes. Writing past the end of the buffer is undefined behaviour: `none`. -/
def memset (p : List Nat) (offset value count : Nat) : Option (List Nat) :=
  if offset + count ≤ p.length then
    some (p.take offset ++ (List.replicate count (value % 256) ++ p.drop (offset + count)))
  else none

/-! ## `remove_background` -/

/-- The largest value of the C++ type `int` (32 bits). The loops compute
`y * width`, `++depth_pixel_index` and `depth_pixel_index * other_bpp` in `int`;
a result above `INT_MAX` is undefined behaviour. -/
def INT_MAX : Nat := 2147483647

/-- The test of line 201 on one depth sample:
`pixels_distance <= 0.f || pixels_distance > clipping_dist`
with `pixels_distance = depth_scale * p_depth_frame[depth_pixel_index]`. -/
def is_background (depth_scale clipping_dist : F32) (sample : Nat) : Bool :=
  let pixels_distance := F32.mul depth_scale (F32.ofUInt16 sample)
  F32.le pixels_distance F32.zero || F32.gt pixels_distance clipping_dist

/-- The body of the inner loop (lines 197-208) at `depth_pixel_index`. Reading
`p_depth_frame` past its end is undefined behaviour, and so is the `int` product
`depth_pixel_index * other_bpp` of line 204 when it exceeds `INT_MAX`: `none`. -/
def pixel_body (p_depth_frame : List Nat) (depth_scale clipping_dist : F32) (other_bpp : Nat)
    (p_other_frame : List Nat) (depth_pixel_index : Nat) : Option (List Nat) :=
  match p_depth_frame[depth_pixel_index]? with
  | none => none
  | some sample =>
    if is_background depth_scale clipping_dist sample then
      if depth_pixel_index * other_bpp ≤ INT_MAX then
        let offset := depth_pixel_index * other_bpp
        memset p_other_frame offset 0x99 other_bpp
      else none
    else some p_other_frame

/-- One turn of the inner loop: the body at `depth_pixel_index`, then the step
`x++, ++depth_pixel_index` of line 195. The increment of the `int`
`depth_pixel_index` beyond `INT_MAX` is undefined behaviour: `none`. (`x++`
cannot overflow before it: `x <= depth_pixel_index`.) -/
def pixel_iter (p_depth_frame : List Nat) (depth_scale clipping_dist : F32) (other_bpp : Nat)
    (p_other_frame : List Nat) (depth_pixel_index : Nat) : Option (List Nat) :=
  (pixel_body p_depth_frame depth_scale clipping_dist other_bpp p_other_frame
      depth_pixel_index).bind
    (fun p => if depth_pixel_index + 1 ≤ INT_MAX then some p else none)

/-- The body of the outer loop (lines 194-209) for the row `y`: the `int`
product `y * width` of line 194 (undefined behaviour above `INT_MAX`: `none`),
then the inner loop `for (int x = 0; x < width; x++, ++depth_pixel_index)`
started at `y * width`. -/
def row_body (p_depth_frame : List Nat) (depth_scale clipping_dist : F32)
    (width other_bpp : Nat) (p_other_frame : List Nat) (y : Nat) : Option (List Nat) :=
  if y * width ≤ INT_MAX then
    (List.range width).foldlM
      (fun p x => pixel_iter p_depth_frame depth_scale clipping_dist other_bpp p (y * width + x))
      p_other_frame
  else none

/-- The outer loop run over the rows in the order `rows`. (`y++` cannot
overflow: `y < height`, and `height` is an `int`.) -/
def remove_background_rows (rows : List Nat) (other_frame : video_frame)
    (depth : depth_frame) (depth_scale clipping_dist : F32) : Option video_frame :=
  (rows.foldlM
    (row_body depth.data depth_scale clipping_dist other_frame.width other_frame.bytes_per_pixel)
    other_frame.data).map (fun p => { other_frame with data := p })

/-- The function `remove_background` (lines 182-211), the rows taken in ascending
order `0, 1, ..., height - 1`. The result is the colour frame after the call;
`none` stands for undefined behaviour: an access outside a buffer, or an `int`
index or offset above `INT_MAX`. The fields `width`, `height` and
`bytes_per_pixel` are the `int` values the getters return. -/
def remove_background (other_frame : video_frame) (depth : depth_frame)
    (depth_scale clipping_dist : F32) : Option video_frame :=
  remove_background_rows (List.range other_frame.height) other_frame depth
    depth_scale clipping_dist

/-- The `bytes_per_pixel` bytes of pixel `i` of a colour frame. -/
def video_frame.pixel (f : video_frame) (i : Nat) : List Nat :=
  (f.data.drop (i * f.bytes_per_pixel)).take f.bytes_per_pixel

/-- Pixel `i` has a depth sample and the test of line 201 holds for it. -/
def bg_at (p_depth_frame : List Nat) (depth_scale clipping_dist : F32) (i : Nat) : Bool :=
  match p_depth_frame[i]? with
  | some sample => is_background depth_scale clipping_dist sample
  | none => false

/-- The turn of the inner loop at pixel `i` is defined: its accesses stay inside
a depth buffer `p_depth_frame` and a colour buffer of `len` bytes, and its `int`
index and offset stay within `INT_MAX`. -/
def step_ok (p_depth_frame : List Nat) (depth_scale clipping_dist : F32) (other_bpp len i : Nat) :
    Prop :=
  i < p_depth_frame.length ∧ i + 1 ≤ INT_MAX ∧
    (bg_at p_depth_frame depth_scale clipping_dist i = true →
      i * other_bpp ≤ INT_MAX ∧ i * other_bpp + other_bpp ≤ len)

/-- The byte `k` lies in a pixel of `idxs` that is classified background. -/
def covered (p_depth_frame : List Nat) (depth_scale clipping_dist : F32) (other_bpp : Nat)
    (idxs : List Nat) (k : Nat) : Prop :=
  ∃ i ∈ idxs, bg_at p_depth_frame depth_scale clipping_dist i = true ∧
    i * other_bpp ≤ k ∧ k < i * other_bpp + other_bpp

/-- The pixel indices the loops visit when the outer loop runs over `rows`. -/
def visited (width : Nat) (rows : List Nat) : List Nat :=
  rows.flatMap (fun y => (List.range width).map (fun x => y * width + x))

/-! ## `find_stream_to_align` -/

/-- The librealsense enumeration `rs2_stream`. -/
inductive rs2_stream where
  | RS2_STREAM_ANY
  | RS2_STREAM_DEPTH
  | RS2_STREAM_COLOR
  | RS2_STREAM_INFRARED
  | RS2_STREAM_FISHEYE
  | RS2_STREAM_GYRO
  | RS2_STREAM_ACCEL
  | RS2_STREAM_GPIO
  | RS2_STREAM_POSE
  | RS2_STREAM_CONFIDENCE
  deriving DecidableEq, Repr

open rs2_stream

/-- The three local variables of `find_stream_to_align`. -/
structure align_state where
  align_to : rs2_stream
  depth_stream_found : Bool
  color_stream_found : Bool
  deriving DecidableEq, Repr

/-- The body of the loop over `streams` (lines 154-168); `profile_stream` is
`sp.stream_type()`. -/
def find_stream_step (st : align_state) (profile_stream : rs2_stream) : align_state :=
  if profile_stream ≠ RS2_STREAM_DEPTH then
    let st1 := if !st.color_stream_found then { st with align_to := profile_stream } else st
    if profile_stream = RS2_STREAM_COLOR then { st1 with color_stream_found := true } else st1
  else { st with depth_stream_found := true }

/-- The function `find_stream_to_align` (lines 144-178) on the stream types of
the profiles; a thrown `std::runtime_error` is `Except.error` with its message. -/
def find_stream_to_align (streams : List rs2_stream) : Except String rs2_stream :=
  let st := streams.foldl find_stream_step
    { align_to := RS2_STREAM_ANY, depth_stream_found := false, color_stream_found := false }
  if !st.depth_stream_found then Except.error "No Depth stream available"
  else if st.align_to = RS2_STREAM_ANY then Except.error "No stream found to align with Depth"
  else Except.ok st.align_to

/-- The stream the reference definition selects: colour when any entry is
colour, else the last entry that is not depth, if there is one. -/
def selected_ref (streams : List rs2_stream) : Option rs2_stream :=
  if RS2_STREAM_COLOR ∈ streams then some RS2_STREAM_COLOR
  else (streams.filter (fun s => decide (s ≠ RS2_STREAM_DEPTH))).getLast?

/-- The reference definition of `find_stream_to_align`, written from its
description and not from the loop. -/
def find_stream_to_align_ref (streams : List rs2_stream) : Except String rs2_stream :=
  if RS2_STREAM_DEPTH ∉ streams then Except.error "No Depth stream available"
  else
    match selected_ref streams with
    | none => Except.error "No stream found to align with Depth"
    | some s =>
      if s = RS2_STREAM_ANY then Except.error "No stream found to align with Depth"
      else Except.ok s

/-! ## The clipping distance of a frame -/

/-- The dlib type `point`. -/
structure point where
  x : Int
  y : Int
  deriving DecidableEq, Repr

/-- The dlib type `full_object_detection`: the landmarks `part(0)`, `part(1)`, ... -/
structure full_object_detection where
  parts : List point
  deriving DecidableEq, Repr

/-- The fourth argument of the call of `remove_background` in the per-frame loop
of `main` (lines 104-122), from the detected `shapes` and the librealsense
function `depth_frame.get_distance`. `part(27)` of a detection with fewer
landmarks is undefined: `none`. -/
def frame_clipping_arg (shapes : List full_object_detection)
    (get_distance : Int → Int → F32) : Option F32 :=
  let depth_clipping_distance : Option F32 :=
    match shapes with
    | [] => some F32.ten
    | face :: _ => (face.parts[27]?).map (fun p => get_distance p.x p.y)
  depth_clipping_distance.map (fun d => F32.add d F32.margin)

/-! ## Concrete inputs -/

/-- The `float` nearest to 0.001: `8589935 * 2^-33` (bit pattern `0x3a83126f`). -/
def F32.milli : F32 := F32.fin false 8589935 116

/-- The `float` 1.5, which is `3 * 2^-1`. -/
def F32.one_and_half : F32 := F32.fin false 3 148

/-- The `float` 1.0. -/
def F32.one : F32 := F32.fin false 1 149

/-- The colour frame of the scenario of the specification: 2 x 1 pixels of 3 bytes. -/
def scenario_color : video_frame :=
  { width := 2, height := 1, bytes_per_pixel := 3, data := [10, 20, 30, 40, 50, 60] }

/-- The depth frame of the scenario of the specification: samples 1000 and 0. -/
def scenario_depth : depth_frame := { width := 2, height := 1, data := [1000, 0] }

/-- A colour frame of one pixel of one byte. -/
def one_pixel_color : video_frame :=
  { width := 1, height := 1, bytes_per_pixel := 1, data := [10] }

/-- A depth frame of one sample, which is 0. -/
def one_pixel_depth : depth_frame := { width := 1, height := 1, data := [0] }

/-- A depth frame of two samples, both 0. -/
def two_pixel_depth : depth_frame := { width := 2, height := 1, data := [0, 0] }

/-- A colour frame of two rows of one pixel of one byte. -/
def two_row_color : video_frame :=
  { width := 1, height := 2, bytes_per_pixel := 1, data := [10, 20] }

/-- A depth frame of two rows of one sample: 1000 and 0. -/
def two_row_depth : depth_frame := { width := 1, height := 2, data := [1000, 0] }

/-- A colour frame of 32769 x 1 pixels of 65536 bytes, all bytes 0: the byte
offset of its last pixel is `32768 * 65536 = 2^31`, one more than `INT_MAX`. -/
def large_color : video_frame :=
  { width := 32769, height := 1, bytes_per_pixel := 65536,
    data := List.replicate (32769 * 65536) 0 }

/-- A depth frame of 32769 x 1 samples, all 0. -/
def large_depth : depth_frame :=
  { width := 32769, height := 1, data := List.replicate 32769 0 }

/-! ## Lemmas on the buffers -/

theorem memset_spec {p q : List Nat} {off v c : Nat} (h : memset p off v c = some q) :
    q.length = p.length ∧
    ∀ k, q[k]? = if off ≤ k ∧ k < off + c then some (v % 256) else p[k]? := by
  unfold memset at h
  split at h
  · simp only [Option.some.injEq] at h
    subst h
    refine ⟨by simp; omega, fun k => ?_⟩
    simp only [List.getElem?_append, List.getElem?_take, List.getElem?_replicate,
      List.getElem?_drop, List.length_take, List.length_replicate]
    split_ifs <;> first | rfl | omega | (congr 1; omega)
  · simp at h

theorem pixel_iter_none {pd : List Nat} {ds cd : F32} {bpp : Nat} {p : List Nat} {i : Nat}
    (h : ¬ step_ok pd ds cd bpp p.length i) : pixel_iter pd ds cd bpp p i = none := by
  unfold step_ok bg_at at h
  unfold pixel_iter pixel_body
  cases hs : pd[i]? with
  | none => rfl
  | some s =>
    have hi : i < pd.length := by
      by_contra hc
      have := List.getElem?_eq_none (Nat.le_of_not_lt hc)
      rw [this] at hs
      exact Option.noConfusion hs
    simp only [hs] at h ⊢
    by_cases hinc : i + 1 ≤ INT_MAX
    · by_cases hb : is_background ds cd s = true
      · simp only [hb, if_true]
        by_cases ho : i * bpp ≤ INT_MAX
        · have hlen : ¬ (i * bpp + bpp ≤ p.length) := fun hc => h ⟨hi, hinc, fun _ => ⟨ho, hc⟩⟩
          simp [memset, ho, hlen]
        · simp [ho]
      · exact absurd ⟨hi, hinc, fun hc => absurd hc hb⟩ h
    · cases hr : (if is_background ds cd s = true then
          if i * bpp ≤ INT_MAX then memset p (i * bpp) 153 bpp else none
        else some p) with
      | none => rfl
      | some q => simp [Option.bind, hinc]

theorem pixel_iter_some {pd : List Nat} {ds cd : F32} {bpp : Nat} {p : List Nat} {i : Nat}
    (h : step_ok pd ds cd bpp p.length i) :
    ∃ q, pixel_iter pd ds cd bpp p i = some q ∧ q.length = p.length ∧
      ∀ k, q[k]? = if bg_at pd ds cd i = true ∧ i * bpp ≤ k ∧ k < i * bpp + bpp
        then some 153 else p[k]? := by
  obtain ⟨hi, hinc, hw⟩ := h
  unfold bg_at at hw ⊢
  unfold pixel_iter pixel_body
  have hs : pd[i]? = some pd[i] := List.getElem?_eq_getElem hi
  simp only [hs] at hw ⊢
  by_cases hb : is_background ds cd pd[i] = true
  · simp only [hb, if_true, true_and]
    obtain ⟨ho, hle⟩ := hw hb
    simp only [ho, if_true]
    cases hm : memset p (i * bpp) 153 bpp with
    | none => unfold memset at hm; simp [hle] at hm
    | some q =>
      obtain ⟨hl, hk⟩ := memset_spec hm
      exact ⟨q, by simp [Option.bind, hinc], hl, fun k => by rw [hk k]⟩
  · simp only [hb]
    exact ⟨p, by simp [Option.bind, hinc], rfl, fun k => by simp⟩

theorem fold_pixels_none {pd : List Nat} {ds cd : F32} {bpp : Nat} :
    ∀ (idxs : List Nat) (p : List Nat), (∃ i ∈ idxs, ¬ step_ok pd ds cd bpp p.length i) →
      idxs.foldlM (pixel_iter pd ds cd bpp) p = none := by
  intro idxs
  induction idxs with
  | nil => intro p h; obtain ⟨i, hi, _⟩ := h; cases hi
  | cons j rest ih =>
    intro p h
    rw [List.foldlM_cons]
    by_cases hj : step_ok pd ds cd bpp p.length j
    · obtain ⟨q, hq, hl, _⟩ := pixel_iter_some hj
      rw [hq]
      show rest.foldlM (pixel_iter pd ds cd bpp) q = none
      apply ih
      obtain ⟨i, hi, hbad⟩ := h
      rcases List.mem_cons.mp hi with rfl | hi
      · exact absurd hj hbad
      · exact ⟨i, hi, by rw [hl]; exact hbad⟩
    · rw [pixel_iter_none hj]; rfl

theorem fold_pixels_some {pd : List Nat} {ds cd : F32} {bpp : Nat} :
    ∀ (idxs : List Nat) (p : List Nat), (∀ i ∈ idxs, step_ok pd ds cd bpp p.length i) →
      ∃ q, idxs.foldlM (pixel_iter pd ds cd bpp) p = some q ∧ q.length = p.length ∧
        ∀ k, (covered pd ds cd bpp idxs k → q[k]? = some 153) ∧
          (¬ covered pd ds cd bpp idxs k → q[k]? = p[k]?) := by
  intro idxs
  induction idxs with
  | nil =>
    intro p _
    refine ⟨p, rfl, rfl, fun k => ⟨fun hc => ?_, fun _ => rfl⟩⟩
    obtain ⟨i, hi, _⟩ := hc
    cases hi
  | cons j rest ih =>
    intro p h
    obtain ⟨q, hq, hl, hk⟩ := pixel_iter_some (h j (List.mem_cons_self _ _))
    obtain ⟨r, hr, hrl, hrk⟩ := ih q (fun i hi => by rw [hl]; exact h i (List.mem_cons_of_mem _ hi))
    refine ⟨r, ?_, by rw [hrl, hl], fun k => ⟨fun hc => ?_, fun hc => ?_⟩⟩
    · rw [List.foldlM_cons, hq]; exact hr
    · by_cases hrest : covered pd ds cd bpp rest k
      · exact (hrk k).1 hrest
      · rw [(hrk k).2 hrest, hk k]
        obtain ⟨i, hi, hb, h1, h2⟩ := hc
        rcases List.mem_cons.mp hi with rfl | hi
        · simp [hb, h1, h2]
        · exact absurd ⟨i, hi, hb, h1, h2⟩ hrest
    · have hrest : ¬ covered pd ds cd bpp rest k := fun ⟨i, hi, hb⟩ =>
        hc ⟨i, List.mem_cons_of_mem _ hi, hb⟩
      rw [(hrk k).2 hrest, hk k]
      have : ¬ (bg_at pd ds cd j = true ∧ j * bpp ≤ k ∧ k < j * bpp + bpp) := fun hb =>
        hc ⟨j, List.mem_cons_self _ _, hb⟩
      simp [this]

/-- The row `y` is the loop of `pixel_iter` over the indices `y*w, ..., y*w + w - 1`. -/
theorem row_body_eq_fold (pd : List Nat) (ds cd : F32) (w bpp : Nat) (p : List Nat) (y : Nat) :
    row_body pd ds cd w bpp p y = (visited w [y]).foldlM (pixel_iter pd ds cd bpp) p := by
  have hv : visited w [y] = (List.range w).map (fun x => y * w + x) := by
    simp [visited]
  rw [hv]
  unfold row_body
  by_cases h : y * w ≤ INT_MAX
  · rw [if_pos h, List.foldlM_map]
  · rw [if_neg h]
    symm
    apply fold_pixels_none
    have hw : 0 < w := by
      rcases Nat.eq_zero_or_pos w with h0 | h0
      · rw [h0] at h; exact absurd (Nat.zero_le _) h
      · exact h0
    refine ⟨y * w, List.mem_map.mpr ⟨0, List.mem_range.mpr hw, rfl⟩, fun hok => ?_⟩
    have := hok.2.1
    omega

theorem fold_rows_eq {pd : List Nat} {ds cd : F32} {w bpp : Nat} :
    ∀ (rows : List Nat) (p : List Nat),
      rows.foldlM (row_body pd ds cd w bpp) p
        = (visited w rows).foldlM (pixel_iter pd ds cd bpp) p := by
  intro rows
  induction rows with
  | nil => intro p; rfl
  | cons y rest ih =>
    intro p
    have hv : visited w (y :: rest) = visited w [y] ++ visited w rest := by
      simp [visited]
    rw [List.foldlM_cons, hv, List.foldlM_append, row_body_eq_fold]
    congr 1
    funext q
    exact ih q

/-! ## Lemmas on `float` -/

/-- The constants are binary32 numbers. -/
theorem constants_valid :
    F32.zero.valid = true ∧ F32.ten.valid = true ∧ F32.margin.valid = true ∧
      F32.milli.valid = true ∧ F32.one.valid = true ∧ F32.one_and_half.valid = true := by
  decide

/-- The constant `margin` is `10066330 * 2^-25`, and no multiple of `2^-25` is
nearer to 3/10: the distance is at most half of `2^-25`. -/
theorem margin_nearest :
    F32.margin = F32.fin false 10066330 (149 - 25) ∧
      10 * 10066330 - 3 * 2 ^ 25 ≤ 5 ∧ 3 * 2 ^ 25 ≤ 10 * 10066330 :=
  ⟨rfl, by norm_num, by norm_num⟩

/-- The constant `milli` is `8589935 * 2^-33`, and no multiple of `2^-33` is
nearer to 1/1000: the distance is at most half of `2^-33`. -/
theorem milli_nearest :
    F32.milli = F32.fin false 8589935 (149 - 33) ∧
      1000 * 8589935 - 2 ^ 33 ≤ 500 ∧ 2 ^ 33 ≤ 1000 * 8589935 :=
  ⟨rfl, by norm_num, by norm_num⟩

theorem bitLengthAux_zero (fuel : Nat) : F32.bitLengthAux fuel 0 = 0 := by
  cases fuel <;> simp [F32.bitLengthAux]

theorem pow_bitLengthAux_le : ∀ (fuel n : Nat), n ≤ fuel → n ≠ 0 →
    2 ^ (F32.bitLengthAux fuel n - 1) ≤ n := by
  intro fuel
  induction fuel with
  | zero => intro n h0 hn; omega
  | succ fuel ih =>
    intro n hle hn
    simp only [F32.bitLengthAux, hn, if_false, Nat.add_sub_cancel]
    by_cases h2 : n / 2 = 0
    · rw [h2, bitLengthAux_zero]; simp; omega
    · have hih := ih (n / 2) (by omega) h2
      have hb : F32.bitLengthAux fuel (n / 2) ≠ 0 := by
        cases fuel with
        | zero => omega
        | succ f => simp [F32.bitLengthAux, h2]
      obtain ⟨b, hbe⟩ := Nat.exists_eq_succ_of_ne_zero hb
      rw [hbe] at hih ⊢
      simp only [Nat.succ_eq_add_one, Nat.add_sub_cancel] at hih
      rw [Nat.pow_succ]
      omega

theorem pow_bitLength_le {n : Nat} (hn : n ≠ 0) : 2 ^ (F32.bitLength n - 1) ≤ n :=
  pow_bitLengthAux_le n n (Nat.le_refl n) hn

theorem lt_pow_bitLengthAux : ∀ (fuel n : Nat), n ≤ fuel → n < 2 ^ F32.bitLengthAux fuel n := by
  intro fuel
  induction fuel with
  | zero => intro n h0; simp [F32.bitLengthAux]; omega
  | succ fuel ih =>
    intro n hle
    by_cases hn : n = 0
    · simp [F32.bitLengthAux, hn]
    · simp only [F32.bitLengthAux, hn, if_false]
      have hih := ih (n / 2) (by omega)
      rw [Nat.pow_succ]
      omega

/-- The function `bitLength` is the number of binary digits: `n < 2^(bitLength n)`,
and `2^(bitLength n - 1) <= n` for `n` other than 0. -/
theorem lt_pow_bitLength (n : Nat) : n < 2 ^ F32.bitLength n :=
  lt_pow_bitLengthAux n n (Nat.le_refl n)

/-- Rounding keeps the sign: the result is an infinity or a finite datum of the
sign asked for. -/
theorem round_sign (neg : Bool) (M : Nat) (x : Int) :
    F32.round neg M x = F32.inf neg ∨ ∃ m e, F32.round neg M x = F32.fin neg m e := by
  unfold F32.round
  dsimp only
  split_ifs
  · exact Or.inr ⟨_, _, rfl⟩
  · exact Or.inl rfl
  · exact Or.inr ⟨_, _, rfl⟩
  · exact Or.inr ⟨_, _, rfl⟩
  · exact Or.inl rfl
  · exact Or.inr ⟨_, _, rfl⟩
  · exact Or.inr ⟨_, _, rfl⟩

/-- Rounding a magnitude that is at least the least subnormal never gives zero. -/
theorem round_pos (neg : Bool) {M : Nat} {x : Int} (hM : M ≠ 0) (hx : 0 ≤ x) :
    F32.round neg M x = F32.inf neg ∨
      ∃ m e, m ≠ 0 ∧ F32.round neg M x = F32.fin neg m e := by
  have hq : 0 < M * 2 ^ (-(max ((F32.bitLength M : Int) - 24) (-x))).toNat
      / 2 ^ (max ((F32.bitLength M : Int) - 24) (-x)).toNat := by
    apply Nat.div_pos _ (Nat.two_pow_pos _)
    by_cases hs : max ((F32.bitLength M : Int) - 24) (-x) ≤ 0
    · have hk : (max ((F32.bitLength M : Int) - 24) (-x)).toNat = 0 := by omega
      rw [hk]
      have := Nat.two_pow_pos (-(max ((F32.bitLength M : Int) - 24) (-x))).toNat
      have hM1 : 1 ≤ M := Nat.pos_of_ne_zero hM
      calc 2 ^ 0 = 1 * 1 := by norm_num
        _ ≤ M * 2 ^ (-(max ((F32.bitLength M : Int) - 24) (-x))).toNat :=
          Nat.mul_le_mul hM1 this
    · have hk : (-(max ((F32.bitLength M : Int) - 24) (-x))).toNat = 0 := by omega
      rw [hk, pow_zero, Nat.mul_one]
      have hle : (max ((F32.bitLength M : Int) - 24) (-x)).toNat ≤ F32.bitLength M - 1 := by
        omega
      exact Nat.le_trans (Nat.pow_le_pow_right (by decide) hle) (pow_bitLength_le hM)
  unfold F32.round
  simp only [hM, if_false]
  split_ifs
  · exact Or.inl rfl
  · exact Or.inr ⟨_, _, by norm_num, rfl⟩
  · exact Or.inr ⟨_, _, by omega, rfl⟩
  · exact Or.inl rfl
  · exact Or.inr ⟨_, _, by norm_num, rfl⟩
  · exact Or.inr ⟨_, _, by omega, rfl⟩

theorem sval_false_pos {m e : Nat} (hm : m ≠ 0) : 0 < F32.sval false m e := by
  unfold F32.sval
  have : 0 < m * 2 ^ e := Nat.mul_pos (Nat.pos_of_ne_zero hm) (Nat.two_pow_pos e)
  simp only [Bool.false_eq_true, if_false]
  exact_mod_cast this

theorem sval_true_nonpos (m e : Nat) : F32.sval true m e ≤ 0 := by
  unfold F32.sval
  simp only [if_true]
  omega

theorem sval_zero (neg : Bool) (e : Nat) : F32.sval neg 0 e = 0 := by
  unfold F32.sval
  cases neg <;> simp

theorem sval_nonpos_cases {s : Bool} {m e : Nat} (h : F32.sval s m e ≤ 0) : s = true ∨ m = 0 := by
  cases s with
  | true => exact Or.inl rfl
  | false =>
    right
    by_contra hm
    have := sval_false_pos (e := e) hm
    omega

theorem sval_pos_cases {s : Bool} {m e : Nat} (h : 0 < F32.sval s m e) : s = false ∧ m ≠ 0 := by
  cases s with
  | true => have := sval_true_nonpos m e; omega
  | false =>
    refine ⟨rfl, fun hm => ?_⟩
    rw [hm, sval_zero] at h
    omega

/-- The order of `float`: `a <= b` and `b < d` give `a < d`. -/
theorem le_lt_trans {a b d : F32} (hab : F32.le a b = true) (hbd : F32.lt b d = true) :
    F32.lt a d = true := by
  cases a <;> cases b <;> cases d <;> simp_all [F32.le, F32.lt]
  omega

/-- A finite `float` times the conversion of a zero sample is a zero. -/
theorem mul_zero_sample (s : Bool) (m e : Nat) {n : Nat} (hn : n % 65536 = 0) :
    F32.mul (F32.fin s m e) (F32.ofUInt16 n) = F32.fin (xor s false) 0 0 := by
  simp [F32.mul, F32.ofUInt16, hn, F32.round]

theorem is_background_zero_sample {ds : F32} (cd : F32) (hfin : ds.isFinite = true) {n : Nat}
    (hn : n % 65536 = 0) : is_background ds cd n = true := by
  cases ds with
  | nan => simp [F32.isFinite] at hfin
  | inf s => simp [F32.isFinite] at hfin
  | fin s m e =>
    unfold is_background
    rw [mul_zero_sample s m e hn]
    simp [F32.le, F32.zero, sval_zero]

/-- A finite positive scale and a threshold `<= 0`: every sample is background. -/
theorem is_background_nonpos_threshold {ds cd : F32} (hfin : ds.isFinite = true)
    (hpos : F32.lt F32.zero ds = true) (hcd : F32.le cd F32.zero = true) (n : Nat) :
    is_background ds cd n = true := by
  by_cases hn : n % 65536 = 0
  · exact is_background_zero_sample cd hfin hn
  · cases ds with
    | nan => simp [F32.isFinite] at hfin
    | inf s => simp [F32.isFinite] at hfin
    | fin s m e =>
      simp only [F32.lt, F32.zero, decide_eq_true_eq, sval_zero] at hpos
      obtain ⟨hs, hm⟩ := sval_pos_cases hpos
      subst hs
      simp only [is_background]
      have hprod : F32.mul (F32.fin false m e) (F32.ofUInt16 n)
          = F32.round false (m * (n % 65536)) (e : Int) := by
        have hx : (e : Int) + ((149 : Nat) : Int) - 149 = (e : Int) := by omega
        simp only [F32.mul, F32.ofUInt16, Bool.xor_false, hx]
      rw [hprod]
      have hM : m * (n % 65536) ≠ 0 := Nat.mul_ne_zero hm hn
      have hgt : F32.gt (F32.round false (m * (n % 65536)) (e : Int)) cd = true := by
        unfold F32.gt
        apply le_lt_trans hcd
        rcases round_pos false hM (Int.ofNat_nonneg e) with h | ⟨m', e', hm', h⟩
        · rw [h]; simp [F32.lt, F32.zero]
        · rw [h]
          simp only [F32.lt, F32.zero, decide_eq_true_eq, sval_zero]
          exact sval_false_pos hm'
      rw [hgt, Bool.or_true]

/-- A finite scale `<= 0` times a sample is `<= 0`. -/
theorem mul_sample_nonpos {ds : F32} (hfin : ds.isFinite = true)
    (hds : F32.le ds F32.zero = true) (n : Nat) :
    F32.le (F32.mul ds (F32.ofUInt16 n)) F32.zero = true := by
  cases ds with
  | nan => simp [F32.isFinite] at hfin
  | inf s => simp [F32.isFinite] at hfin
  | fin s m e =>
    simp only [F32.le, F32.zero, decide_eq_true_eq, sval_zero] at hds
    have hprod : F32.mul (F32.fin s m e) (F32.ofUInt16 n)
        = F32.round s (m * (n % 65536)) (e : Int) := by
      have hx : (e : Int) + ((149 : Nat) : Int) - 149 = (e : Int) := by omega
      simp only [F32.mul, F32.ofUInt16, Bool.xor_false, hx]
    rw [hprod]
    by_cases hM : m * (n % 65536) = 0
    · simp [F32.round, hM, F32.le, F32.zero, sval_zero]
    · have hm : m ≠ 0 := fun h => hM (by simp [h])
      rcases sval_nonpos_cases hds with hs | h0
      · subst hs
        rcases round_sign true (m * (n % 65536)) (e : Int) with h | ⟨m2, e2, h⟩
        · rw [h]; simp [F32.le, F32.zero]
        · rw [h]
          simp only [F32.le, F32.zero, decide_eq_true_eq, sval_zero]
          exact sval_true_nonpos m2 e2
      · exact absurd h0 hm

/-- A finite scale `<= 0`: every sample is background. -/
theorem is_background_nonpos_scale {ds : F32} (cd : F32) (hfin : ds.isFinite = true)
    (hds : F32.le ds F32.zero = true) (n : Nat) : is_background ds cd n = true := by
  simp only [is_background, mul_sample_nonpos hfin hds n, Bool.true_or]

/-- Raising the threshold keeps a foreground sample foreground. -/
theorem is_background_mono {ds c1 c2 : F32} (h : F32.le c1 c2 = true) {n : Nat}
    (hfg : is_background ds c1 n = false) : is_background ds c2 n = false := by
  unfold is_background at hfg ⊢
  simp only [Bool.or_eq_false_iff] at hfg ⊢
  refine ⟨hfg.1, ?_⟩
  by_contra hc
  have hc' : F32.lt c2 (F32.mul ds (F32.ofUInt16 n)) = true := by
    simpa [F32.gt] using hc
  have := le_lt_trans h hc'
  have h2 := hfg.2
  unfold F32.gt at h2
  rw [this] at h2
  exact Bool.noConfusion h2

/-! ## Lemmas on the loops -/

theorem mem_visited {w : Nat} {rows : List Nat} {i : Nat} :
    i ∈ visited w rows ↔ ∃ y ∈ rows, ∃ x, x < w ∧ i = y * w + x := by
  unfold visited
  simp only [List.mem_flatMap, List.mem_map, List.mem_range]
  constructor
  · rintro ⟨y, hy, x, hx, rfl⟩
    exact ⟨y, hy, x, hx, rfl⟩
  · rintro ⟨y, hy, x, hx, rfl⟩
    exact ⟨y, hy, x, hx, rfl⟩

theorem mem_visited_range {w h i : Nat} : i ∈ visited w (List.range h) ↔ i < w * h := by
  rw [mem_visited]
  constructor
  · rintro ⟨y, hy, x, hx, rfl⟩
    have hy' : y + 1 ≤ h := List.mem_range.mp hy
    calc y * w + x < y * w + w := by omega
      _ = (y + 1) * w := by ring
      _ ≤ h * w := Nat.mul_le_mul_right w hy'
      _ = w * h := Nat.mul_comm h w
  · intro hi
    refine ⟨i / w, List.mem_range.mpr (Nat.div_lt_of_lt_mul hi), i % w, ?_, ?_⟩
    · apply Nat.mod_lt
      rcases Nat.eq_zero_or_pos w with h0 | h0
      · rw [h0, Nat.zero_mul] at hi; omega
      · exact h0
    · exact (Nat.div_add_mod' i w).symm

theorem pixel_bounds {bpp i i' k : Nat} (h1 : i * bpp ≤ k) (h2 : k < i * bpp + bpp)
    (h3 : i' * bpp ≤ k) (h4 : k < i' * bpp + bpp) : i = i' := by
  rcases Nat.lt_trichotomy i i' with h | h | h
  · have : (i + 1) * bpp ≤ i' * bpp := Nat.mul_le_mul_right bpp h
    rw [Nat.add_mul, Nat.one_mul] at this
    omega
  · exact h
  · have : (i' + 1) * bpp ≤ i * bpp := Nat.mul_le_mul_right bpp h
    rw [Nat.add_mul, Nat.one_mul] at this
    omega

theorem pixel_end_le {n i : Nat} (bpp : Nat) (hi : i < n) : i * bpp + bpp ≤ n * bpp := by
  have : (i + 1) * bpp ≤ n * bpp := Nat.mul_le_mul_right bpp hi
  rw [Nat.add_mul, Nat.one_mul] at this
  exact this

/-- Inside the frame, a byte is covered exactly when its pixel is background. -/
theorem covered_range_iff {pd : List Nat} {ds cd : F32} {w h bpp k : Nat} :
    covered pd ds cd bpp (visited w (List.range h)) k ↔
      k < w * h * bpp ∧ bg_at pd ds cd (k / bpp) = true := by
  unfold covered
  constructor
  · rintro ⟨i, hi, hb, h1, h2⟩
    have hin := mem_visited_range.mp hi
    have hend := pixel_end_le bpp hin
    have hpos : 0 < bpp := by
      rcases Nat.eq_zero_or_pos bpp with h0 | h0
      · rw [h0] at h1 h2; omega
      · exact h0
    have hdiv : k / bpp = i := by
      apply Nat.div_eq_of_lt_le
      · exact h1
      · rw [Nat.succ_mul]; exact h2
    rw [hdiv]
    exact ⟨by omega, hb⟩
  · rintro ⟨hk, hb⟩
    have hpos : 0 < bpp := by
      rcases Nat.eq_zero_or_pos bpp with h0 | h0
      · rw [h0] at hk; omega
      · exact h0
    refine ⟨k / bpp, mem_visited_range.mpr ?_, hb, Nat.div_mul_le_self k bpp, ?_⟩
    · exact Nat.div_lt_of_lt_mul (by rw [Nat.mul_comm]; exact hk)
    · have := Nat.div_add_mod' k bpp
      have := Nat.mod_lt k hpos
      omega

theorem step_ok_of_sizes {pd : List Nat} {ds cd : F32} {w h bpp len : Nat}
    (hd : w * h ≤ pd.length) (hc : w * h * bpp ≤ len)
    (hpix : w * h ≤ INT_MAX) (hoff : (w * h - 1) * bpp ≤ INT_MAX) :
    ∀ i ∈ visited w (List.range h), step_ok pd ds cd bpp len i := by
  intro i hi
  have hin := mem_visited_range.mp hi
  have := pixel_end_le bpp hin
  have hlast : i * bpp ≤ (w * h - 1) * bpp := Nat.mul_le_mul_right bpp (by omega)
  exact ⟨by omega, by omega, fun _ => ⟨by omega, by omega⟩⟩

/-- The loops over any list of rows, when every access stays inside the buffers. -/
theorem rows_some (rows : List Nat) (other : video_frame) (depth : depth_frame) (ds cd : F32)
    (hok : ∀ i ∈ visited other.width rows,
      step_ok depth.data ds cd other.bytes_per_pixel other.data.length i) :
    ∃ q, remove_background_rows rows other depth ds cd = some { other with data := q } ∧
      q.length = other.data.length ∧
      ∀ k, (covered depth.data ds cd other.bytes_per_pixel (visited other.width rows) k →
          q[k]? = some 153) ∧
        (¬ covered depth.data ds cd other.bytes_per_pixel (visited other.width rows) k →
          q[k]? = other.data[k]?) := by
  obtain ⟨q, hq, hl, hk⟩ := fold_pixels_some (visited other.width rows) other.data hok
  refine ⟨q, ?_, hl, hk⟩
  unfold remove_background_rows
  rw [fold_rows_eq, hq]
  rfl

/-- The loops over any list of rows, when some access leaves a buffer. -/
theorem rows_none {rows : List Nat} {other : video_frame} {depth : depth_frame} {ds cd : F32}
    (hbad : ∃ i ∈ visited other.width rows,
      ¬ step_ok depth.data ds cd other.bytes_per_pixel other.data.length i) :
    remove_background_rows rows other depth ds cd = none := by
  unfold remove_background_rows
  rw [fold_rows_eq, fold_pixels_none (visited other.width rows) other.data hbad]
  rfl

/-- The effect of `remove_background` byte by byte, for buffers that are large
enough for the dimensions of the colour frame. -/
theorem remove_background_bytes (other : video_frame) (depth : depth_frame) (ds cd : F32)
    (hd : other.width * other.height ≤ depth.data.length)
    (hc : other.width * other.height * other.bytes_per_pixel ≤ other.data.length)
    (hpix : other.width * other.height ≤ INT_MAX)
    (hoff : (other.width * other.height - 1) * other.bytes_per_pixel ≤ INT_MAX) :
    ∃ q, remove_background other depth ds cd = some { other with data := q } ∧
      q.length = other.data.length ∧
      ∀ k, q[k]? =
        if k < other.width * other.height * other.bytes_per_pixel ∧
            bg_at depth.data ds cd (k / other.bytes_per_pixel) = true
        then some 153 else other.data[k]? := by
  obtain ⟨q, hq, hl, hk⟩ := rows_some (List.range other.height) other depth ds cd
    (step_ok_of_sizes hd hc hpix hoff)
  refine ⟨q, hq, hl, fun k => ?_⟩
  by_cases hcov : covered depth.data ds cd other.bytes_per_pixel
      (visited other.width (List.range other.height)) k
  · rw [(hk k).1 hcov, if_pos (covered_range_iff.mp hcov)]
  · rw [(hk k).2 hcov, if_neg (fun h => hcov (covered_range_iff.mpr h))]

theorem getElem?_pixel (f : video_frame) (i j : Nat) :
    (f.pixel i)[j]? = if j < f.bytes_per_pixel then f.data[i * f.bytes_per_pixel + j]? else none := by
  unfold video_frame.pixel
  rw [List.getElem?_take, List.getElem?_drop]

theorem bg_at_eq {pd : List Nat} (ds cd : F32) {i : Nat} (hi : i < pd.length) :
    bg_at pd ds cd i = is_background ds cd (pd.getD i 0) := by
  unfold bg_at
  rw [List.getD_eq_getElem?_getD, List.getElem?_eq_getElem hi]
  rfl

/-- The effect of `remove_background` pixel by pixel. -/
theorem remove_background_pixels (other : video_frame) (depth : depth_frame) (ds cd : F32)
    (hd : other.width * other.height ≤ depth.data.length)
    (hc : other.width * other.height * other.bytes_per_pixel ≤ other.data.length)
    (hpix : other.width * other.height ≤ INT_MAX)
    (hoff : (other.width * other.height - 1) * other.bytes_per_pixel ≤ INT_MAX) :
    ∃ out, remove_background other depth ds cd = some out ∧
      out.width = other.width ∧ out.height = other.height ∧
      out.bytes_per_pixel = other.bytes_per_pixel ∧
      out.data.length = other.data.length ∧
      ∀ i, i < other.width * other.height →
        out.pixel i =
          if is_background ds cd (depth.data.getD i 0) = true
          then List.replicate other.bytes_per_pixel 0x99 else other.pixel i := by
  obtain ⟨q, hq, hl, hk⟩ := remove_background_bytes other depth ds cd hd hc hpix hoff
  refine ⟨{ other with data := q }, hq, rfl, rfl, rfl, hl, fun i hi => ?_⟩
  have hend := pixel_end_le other.bytes_per_pixel hi
  have hbg := bg_at_eq ds cd (Nat.lt_of_lt_of_le hi hd)
  apply List.ext_getElem?
  intro j
  rw [getElem?_pixel]
  simp only []
  by_cases hj : j < other.bytes_per_pixel
  · have hdiv : (i * other.bytes_per_pixel + j) / other.bytes_per_pixel = i := by
      apply Nat.div_eq_of_lt_le
      · omega
      · rw [Nat.succ_mul]; omega
    rw [if_pos hj, hk, hdiv, hbg]
    by_cases hb : is_background ds cd (depth.data.getD i 0) = true
    · rw [if_pos ⟨by omega, hb⟩, if_pos hb, List.getElem?_replicate, if_pos hj]
    · rw [if_neg (fun h => hb h.2), if_neg hb, getElem?_pixel, if_pos hj]
  · rw [if_neg hj]
    by_cases hb : is_background ds cd (depth.data.getD i 0) = true
    · rw [if_pos hb, List.getElem?_replicate, if_neg hj]
    · rw [if_neg hb, getElem?_pixel, if_neg hj]

/-- When every sample is background the whole frame becomes `0x99`. -/
theorem remove_background_all (other : video_frame) (depth : depth_frame) (ds cd : F32)
    (hd : depth.data.length = other.width * other.height)
    (hc : other.data.length = other.width * other.height * other.bytes_per_pixel)
    (hpix : other.width * other.height ≤ INT_MAX)
    (hoff : (other.width * other.height - 1) * other.bytes_per_pixel ≤ INT_MAX)
    (hall : ∀ n, is_background ds cd n = true) :
    remove_background other depth ds cd = some { other with
      data := List.replicate (other.width * other.height * other.bytes_per_pixel) 0x99 } := by
  obtain ⟨q, hq, hl, hk⟩ := remove_background_bytes other depth ds cd (by omega) (by omega)
    hpix hoff
  rw [hq]
  congr 2
  apply List.ext_getElem?
  intro k
  rw [hk, List.getElem?_replicate]
  by_cases hlt : k < other.width * other.height * other.bytes_per_pixel
  · have hpos : 0 < other.bytes_per_pixel := by
      rcases Nat.eq_zero_or_pos other.bytes_per_pixel with h0 | h0
      · rw [h0] at hlt; omega
      · exact h0
    have hi : k / other.bytes_per_pixel < depth.data.length := by
      rw [hd]
      exact Nat.div_lt_of_lt_mul (by rw [Nat.mul_comm]; exact hlt)
    rw [if_pos ⟨hlt, by rw [bg_at_eq ds cd hi]; exact hall _⟩, if_pos hlt]
  · rw [if_neg (fun h => hlt h.1), if_neg hlt]
    exact List.getElem?_eq_none (by omega)

/-- Two loops whose bodies agree on the elements visited give the same result. -/
theorem foldlM_congr_mem {α β : Type} {f g : β → α → Option β} :
    ∀ (l : List α) (b : β), (∀ a ∈ l, ∀ c, f c a = g c a) → l.foldlM f b = l.foldlM g b := by
  intro l
  induction l with
  | nil => intro b _; rfl
  | cons a rest ih =>
    intro b h
    rw [List.foldlM_cons, List.foldlM_cons, h a (List.mem_cons_self _ _) b]
    congr 1
    funext c
    exact ih c (fun a' ha' => h a' (List.mem_cons_of_mem _ ha'))


theorem covered_congr {pd : List Nat} {ds cd : F32} {bpp : Nat} {l1 l2 : List Nat}
    (h : ∀ i, i ∈ l1 ↔ i ∈ l2) (k : Nat) :
    covered pd ds cd bpp l1 k ↔ covered pd ds cd bpp l2 k := by
  unfold covered
  constructor
  · rintro ⟨i, hi, hb⟩
    exact ⟨i, (h i).mp hi, hb⟩
  · rintro ⟨i, hi, hb⟩
    exact ⟨i, (h i).mpr hi, hb⟩

/-- The loops over two lists of rows with the same members give the same result. -/
theorem rows_congr {rows1 rows2 : List Nat} (other : video_frame) (depth : depth_frame)
    (ds cd : F32) (h : ∀ y, y ∈ rows1 ↔ y ∈ rows2) :
    remove_background_rows rows1 other depth ds cd
      = remove_background_rows rows2 other depth ds cd := by
  have hv : ∀ i, i ∈ visited other.width rows1 ↔ i ∈ visited other.width rows2 := by
    intro i
    rw [mem_visited, mem_visited]
    constructor
    · rintro ⟨y, hy, hx⟩
      exact ⟨y, (h y).mp hy, hx⟩
    · rintro ⟨y, hy, hx⟩
      exact ⟨y, (h y).mpr hy, hx⟩
  by_cases hok : ∀ i ∈ visited other.width rows1,
      step_ok depth.data ds cd other.bytes_per_pixel other.data.length i
  · obtain ⟨q1, h1, _, hk1⟩ := rows_some rows1 other depth ds cd hok
    obtain ⟨q2, h2, _, hk2⟩ := rows_some rows2 other depth ds cd
      (fun i hi => hok i ((hv i).mpr hi))
    rw [h1, h2]
    have : q1 = q2 := by
      apply List.ext_getElem?
      intro k
      by_cases hc : covered depth.data ds cd other.bytes_per_pixel (visited other.width rows1) k
      · rw [(hk1 k).1 hc, (hk2 k).1 ((covered_congr hv k).mp hc)]
      · rw [(hk1 k).2 hc, (hk2 k).2 (fun h2 => hc ((covered_congr hv k).mpr h2))]
    rw [this]
  · have hbad : ∃ i ∈ visited other.width rows1,
        ¬ step_ok depth.data ds cd other.bytes_per_pixel other.data.length i := by
      by_contra hne
      apply hok
      intro i hi
      by_contra hi2
      exact hne ⟨i, hi, hi2⟩
    obtain ⟨i, hi, hi2⟩ := hbad
    rw [rows_none ⟨i, hi, hi2⟩, rows_none ⟨i, (hv i).mp hi, hi2⟩]

/-- The bytes a row can write. -/
theorem row_body_frame {pd : List Nat} {ds cd : F32} {w bpp : Nat} {p q : List Nat} {y : Nat}
    (h : row_body pd ds cd w bpp p y = some q) {k : Nat}
    (hk : k < y * w * bpp ∨ (y + 1) * w * bpp ≤ k) : q[k]? = p[k]? := by
  rw [row_body_eq_fold] at h
  by_cases hok : ∀ i ∈ visited w [y], step_ok pd ds cd bpp p.length i
  · obtain ⟨q1, h1, _, hk1⟩ := fold_pixels_some (visited w [y]) p hok
    rw [h1] at h
    cases h
    apply (hk1 k).2
    rintro ⟨i, hi, _, h1, h2⟩
    obtain ⟨y1, hy1, x, hx, rfl⟩ := mem_visited.mp hi
    have hy : y1 = y := by simpa using hy1
    subst hy
    have hlo : y1 * w * bpp ≤ (y1 * w + x) * bpp := Nat.mul_le_mul_right bpp (by omega)
    have hhi : (y1 * w + x + 1) * bpp ≤ (y1 + 1) * w * bpp := by
      apply Nat.mul_le_mul_right bpp
      rw [Nat.add_mul, Nat.one_mul]
      omega
    rw [Nat.add_mul (y1 * w + x) 1 bpp, Nat.one_mul] at hhi
    omega
  · have hbad : ∃ i ∈ visited w [y], ¬ step_ok pd ds cd bpp p.length i := by
      by_contra hne
      apply hok
      intro i hi
      by_contra hi2
      exact hne ⟨i, hi, hi2⟩
    rw [fold_pixels_none (visited w [y]) p hbad] at h
    cases h

/-- The depth samples a row depends on. -/
theorem row_body_depends {pd pd2 : List Nat} (ds cd : F32) {w : Nat} (bpp : Nat) (p : List Nat)
    {y : Nat} (h : ∀ x, x < w → pd2[y * w + x]? = pd[y * w + x]?) :
    row_body pd2 ds cd w bpp p y = row_body pd ds cd w bpp p y := by
  unfold row_body
  split
  · apply foldlM_congr_mem
    intro x hx c
    unfold pixel_iter pixel_body
    rw [h x (List.mem_range.mp hx)]
  · rfl

/-- Two calls in succession give what one call gives, be it a colour frame or
undefined behaviour. -/
theorem remove_background_twice (other : video_frame) (depth : depth_frame) (ds cd : F32) :
    (remove_background other depth ds cd).bind (fun once => remove_background once depth ds cd)
      = remove_background other depth ds cd := by
  unfold remove_background
  by_cases hok : ∀ i ∈ visited other.width (List.range other.height),
      step_ok depth.data ds cd other.bytes_per_pixel other.data.length i
  · obtain ⟨q, hq, hl, hk⟩ := rows_some (List.range other.height) other depth ds cd hok
    obtain ⟨r, hr, _, hrk⟩ := rows_some (List.range other.height) { other with data := q }
      depth ds cd (by rw [hl]; exact hok)
    rw [hq]
    show remove_background_rows (List.range other.height) { other with data := q } depth ds cd
      = some { other with data := q }
    rw [hr]
    have hrq : r = q := by
      apply List.ext_getElem?
      intro k
      by_cases hc : covered depth.data ds cd other.bytes_per_pixel
          (visited other.width (List.range other.height)) k
      · rw [(hrk k).1 hc, (hk k).1 hc]
      · exact (hrk k).2 hc
    rw [hrq]
  · have hbad : ∃ i ∈ visited other.width (List.range other.height),
        ¬ step_ok depth.data ds cd other.bytes_per_pixel other.data.length i := by
      by_contra hne
      apply hok
      intro i hi
      by_contra hi2
      exact hne ⟨i, hi, hi2⟩
    rw [rows_none hbad]
    rfl

/-- A foreground sample: the loop body computes no offset and leaves the buffer
as it is. -/
theorem pixel_body_foreground {pd : List Nat} {ds cd : F32} (bpp : Nat) (p : List Nat)
    {i sample : Nat} (hs : pd[i]? = some sample) (hfg : is_background ds cd sample = false) :
    pixel_body pd ds cd bpp p i = some p := by
  unfold pixel_body
  rw [hs]
  simp [hfg]

/-- A background pixel inside the frame whose byte offset exceeds `INT_MAX`: the
`int` product of line 204 overflows and the call is undefined. -/
theorem overflow_undefined (other : video_frame) (depth : depth_frame) (ds cd : F32) (i : Nat)
    (hi : i < other.width * other.height)
    (hbg : bg_at depth.data ds cd i = true)
    (hov : INT_MAX < i * other.bytes_per_pixel) :
    remove_background other depth ds cd = none := by
  unfold remove_background
  apply rows_none
  exact ⟨i, mem_visited_range.mpr hi, fun hok => by have := (hok.2.2 hbg).1; omega⟩

theorem bg_at_of_sample {pd : List Nat} {ds cd : F32} {i sample : Nat}
    (hs : pd[i]? = some sample) (h : is_background ds cd sample = true) :
    bg_at pd ds cd i = true := by
  unfold bg_at
  rw [hs]
  exact h

theorem large_depth_sample : large_depth.data[32768]? = some 0 := by
  unfold large_depth
  rw [List.getElem?_replicate, if_pos (by norm_num)]

/-- The frame `large_color` and its depth frame have matching sizes, pixel 32768
lies inside the frame with depth sample 0, and its byte offset `32768 * 65536`
exceeds `INT_MAX`. -/
theorem large_frame_sizes :
    1 ≤ large_color.bytes_per_pixel ∧
      large_depth.data.length = large_color.width * large_color.height ∧
      large_color.data.length
        = large_color.width * large_color.height * large_color.bytes_per_pixel ∧
      32768 < large_color.width * large_color.height ∧
      large_depth.data.getD 32768 0 = 0 ∧
      INT_MAX < 32768 * large_color.bytes_per_pixel := by
  refine ⟨by decide, ?_, ?_, by decide, ?_, by decide⟩
  · unfold large_depth large_color
    rw [List.length_replicate]
    rfl
  · unfold large_color
    rw [List.length_replicate]
    rfl
  · rw [List.getD_eq_getElem?_getD, large_depth_sample]
    rfl

/-- On the frame `large_color` the call is undefined as soon as the sample 0 is
background. -/
theorem large_frame_undefined (ds cd : F32) (h : is_background ds cd 0 = true) :
    remove_background large_color large_depth ds cd = none :=
  overflow_undefined large_color large_depth ds cd 32768 large_frame_sizes.2.2.2.1
    (bg_at_of_sample large_depth_sample h) large_frame_sizes.2.2.2.2.2

/-! ## Lemmas on `find_stream_to_align` -/

/-- The state of the loop of `find_stream_to_align` after the streams `l`. -/
theorem find_stream_loop (l : List rs2_stream) :
    l.foldl find_stream_step
        { align_to := RS2_STREAM_ANY, depth_stream_found := false, color_stream_found := false }
      = { align_to := (selected_ref l).getD RS2_STREAM_ANY,
          depth_stream_found := decide (RS2_STREAM_DEPTH ∈ l),
          color_stream_found := decide (RS2_STREAM_COLOR ∈ l) } := by
  induction l using List.reverseRecOn with
  | nil => simp [selected_ref]
  | append_singleton l a ih =>
    rw [List.foldl_append, ih]
    simp only [List.foldl_cons, List.foldl_nil]
    by_cases hd : a = RS2_STREAM_DEPTH
    · subst hd
      simp [find_stream_step, selected_ref, List.filter_append]
    · by_cases hc : a = RS2_STREAM_COLOR
      · subst hc
        by_cases hl : RS2_STREAM_COLOR ∈ l
        · simp [find_stream_step, selected_ref, hl]
        · simp [find_stream_step, selected_ref, hl]
      · by_cases hl : RS2_STREAM_COLOR ∈ l
        · have hd' : RS2_STREAM_DEPTH ∈ l ++ [a] ↔ RS2_STREAM_DEPTH ∈ l := by
            simp [Ne.symm hd]
          simp [find_stream_step, selected_ref, hl, hd, hc, Ne.symm hd]
        · have hca : ¬ RS2_STREAM_COLOR = a := Ne.symm hc
          simp [find_stream_step, selected_ref, hl, hd, hc, hca, Ne.symm hd,
            List.filter_append]

/-! ## The claims -/

/-- Claim C9: `find_stream_to_align` equals the reference definition on every
list of stream types: no depth entry gives the error "No Depth stream
available"; else no entry other than depth, or a selected stream equal to
`RS2_STREAM_ANY`, gives "No stream found to align with Depth"; else the result
is colour when some entry is colour and the last entry other than depth when
none is. -/
theorem find_stream_to_align_eq_ref (streams : List rs2_stream) :
    find_stream_to_align streams = find_stream_to_align_ref streams := by
  unfold find_stream_to_align find_stream_to_align_ref
  rw [find_stream_loop]
  by_cases hd : RS2_STREAM_DEPTH ∈ streams
  · cases hs : selected_ref streams with
    | none => simp [hd]
    | some s =>
      by_cases ha : s = RS2_STREAM_ANY
      · simp [hd, ha]
      · simp [hd, ha]
  · simp [hd]

/-- Claim C1, as stated, fails: the frame of 32769 x 1 pixels of 65536 bytes has
`bpp >= 1`, buffers of matching sizes and a positive scale, its pixel 32768 has
depth sample 0 and is background, but the byte offset `32768 * 65536 = 2^31` of
that pixel exceeds `INT_MAX`: the `int` product of line 204 overflows and the
call yields no colour buffer. -/
theorem sentinel_undefined_large_frame :
    (1 ≤ large_color.bytes_per_pixel ∧
      large_depth.data.length = large_color.width * large_color.height ∧
      large_color.data.length
        = large_color.width * large_color.height * large_color.bytes_per_pixel ∧
      F32.lt F32.zero F32.milli = true) ∧
    32768 < large_color.width * large_color.height ∧
    is_background F32.milli F32.one_and_half (large_depth.data.getD 32768 0) = true ∧
    INT_MAX < 32768 * large_color.bytes_per_pixel ∧
    remove_background large_color large_depth F32.milli F32.one_and_half = none :=
  ⟨⟨large_frame_sizes.1, large_frame_sizes.2.1, large_frame_sizes.2.2.1, by decide⟩,
    large_frame_sizes.2.2.2.1,
    by rw [large_frame_sizes.2.2.2.2.1]; decide,
    large_frame_sizes.2.2.2.2.2,
    large_frame_undefined F32.milli F32.one_and_half (by decide)⟩

/-- Claim C1, amended (sentinel exactness): for a frame whose pixel count `W*H`
and whose last byte offset `(W*H - 1) * bpp` do not exceed `INT_MAX`, a depth
buffer of `W*H` samples and a colour buffer of `W*H*bpp` bytes, the call returns,
and every pixel `i < W*H` has all its `bpp` bytes equal to `0x99` when
`depth_scale * depth[i] <= 0` or `depth_scale * depth[i] > clipping_dist`, and
keeps its `bpp` bytes as they were otherwise, for every `bpp >= 1`, every
positive `depth_scale` and every `clipping_dist` (the proof uses neither
`bpp >= 1` nor the sign of the scale). -/
theorem remove_background_sentinel_exact (other : video_frame) (depth : depth_frame)
    (depth_scale clipping_dist : F32)
    (_hbpp : 1 ≤ other.bytes_per_pixel)
    (hdepth : depth.data.length = other.width * other.height)
    (hcolor : other.data.length = other.width * other.height * other.bytes_per_pixel)
    (hpixels : other.width * other.height ≤ INT_MAX)
    (hoffset : (other.width * other.height - 1) * other.bytes_per_pixel ≤ INT_MAX)
    (_hscale : F32.lt F32.zero depth_scale = true) :
    ∃ out, remove_background other depth depth_scale clipping_dist = some out ∧
      out.width = other.width ∧ out.height = other.height ∧
      out.bytes_per_pixel = other.bytes_per_pixel ∧
      out.data.length = other.data.length ∧
      ∀ i, i < other.width * other.height →
        out.pixel i =
          if (F32.le (F32.mul depth_scale (F32.ofUInt16 (depth.data.getD i 0))) F32.zero
              || F32.gt (F32.mul depth_scale (F32.ofUInt16 (depth.data.getD i 0)))
                  clipping_dist) = true
          then List.replicate other.bytes_per_pixel 0x99 else other.pixel i :=
  remove_background_pixels other depth depth_scale clipping_dist (by omega) (by omega)
    hpixels hoffset

/-- The scenario of the specification for claim C1: `W=2`, `H=1`, depth
`[1000, 0]`, scale 0.001, threshold 1.5, `bpp=3`, colour
`[[10,20,30],[40,50,60]]` gives `[[10,20,30],[0x99,0x99,0x99]]`. -/
theorem remove_background_sentinel_exact_witness :
    (1 ≤ scenario_color.bytes_per_pixel ∧
      scenario_depth.data.length = scenario_color.width * scenario_color.height ∧
      scenario_color.data.length
        = scenario_color.width * scenario_color.height * scenario_color.bytes_per_pixel ∧
      scenario_color.width * scenario_color.height ≤ INT_MAX ∧
      (scenario_color.width * scenario_color.height - 1) * scenario_color.bytes_per_pixel
        ≤ INT_MAX ∧
      F32.lt F32.zero F32.milli = true) ∧
    remove_background scenario_color scenario_depth F32.milli F32.one_and_half
      = some { scenario_color with data := [10, 20, 30, 0x99, 0x99, 0x99] } ∧
    ∃ out, remove_background scenario_color scenario_depth F32.milli F32.one_and_half
        = some out ∧
      out.width = scenario_color.width ∧ out.height = scenario_color.height ∧
      out.bytes_per_pixel = scenario_color.bytes_per_pixel ∧
      out.data.length = scenario_color.data.length ∧
      ∀ i, i < scenario_color.width * scenario_color.height →
        out.pixel i =
          if (F32.le (F32.mul F32.milli (F32.ofUInt16 (scenario_depth.data.getD i 0))) F32.zero
              || F32.gt (F32.mul F32.milli (F32.ofUInt16 (scenario_depth.data.getD i 0)))
                  F32.one_and_half) = true
          then List.replicate scenario_color.bytes_per_pixel 0x99
          else scenario_color.pixel i :=
  ⟨⟨by decide, by decide, by decide, by decide, by decide, by decide⟩, by decide,
    remove_background_sentinel_exact scenario_color scenario_depth F32.milli F32.one_and_half
      (by decide) (by decide) (by decide) (by decide) (by decide) (by decide)⟩

/-- Claim C2 (idempotence): for every colour frame, depth frame, scale and
threshold, two calls in succession with the same depth frame, scale and
threshold give what one call gives (a colour frame, or undefined behaviour for
both). For buffers of matching dimensions whose index and offset stay within
`INT_MAX` the call returns a frame `once`, and the second call on `once`
returns `once` again. -/
theorem remove_background_idempotent (other : video_frame) (depth : depth_frame)
    (depth_scale clipping_dist : F32) :
    (remove_background other depth depth_scale clipping_dist).bind
        (fun once => remove_background once depth depth_scale clipping_dist)
      = remove_background other depth depth_scale clipping_dist ∧
    (depth.data.length = other.width * other.height →
      other.data.length = other.width * other.height * other.bytes_per_pixel →
      other.width * other.height ≤ INT_MAX →
      (other.width * other.height - 1) * other.bytes_per_pixel ≤ INT_MAX →
      ∃ once, remove_background other depth depth_scale clipping_dist = some once ∧
        remove_background once depth depth_scale clipping_dist = some once) := by
  have htwice := remove_background_twice other depth depth_scale clipping_dist
  refine ⟨htwice, fun hdepth hcolor hpixels hoffset => ?_⟩
  obtain ⟨q, hq, _, _⟩ := remove_background_bytes other depth depth_scale clipping_dist
    (by omega) (by omega) hpixels hoffset
  refine ⟨{ other with data := q }, hq, ?_⟩
  rw [hq] at htwice
  exact htwice

/-- The scenario of the specification, run twice, for claim C2. -/
theorem remove_background_idempotent_witness :
    (scenario_depth.data.length = scenario_color.width * scenario_color.height ∧
      scenario_color.data.length
        = scenario_color.width * scenario_color.height * scenario_color.bytes_per_pixel ∧
      scenario_color.width * scenario_color.height ≤ INT_MAX ∧
      (scenario_color.width * scenario_color.height - 1) * scenario_color.bytes_per_pixel
        ≤ INT_MAX) ∧
    ∃ once, remove_background scenario_color scenario_depth F32.milli F32.one_and_half
        = some once ∧
      remove_background once scenario_depth F32.milli F32.one_and_half = some once :=
  ⟨⟨by decide, by decide, by decide, by decide⟩,
    (remove_background_idempotent scenario_color scenario_depth F32.milli
      F32.one_and_half).2 (by decide) (by decide) (by decide) (by decide)⟩

/-- Claim C3 (monotone threshold): for thresholds `c1 <= c2`, the same depth
buffer and the same scale, a sample that is foreground with threshold `c1` is
foreground with threshold `c2`; at such a pixel the loop body leaves the buffer
as it is with either threshold; and for buffers of matching dimensions whose
index and offset stay within `INT_MAX` both calls return, and every pixel that
is foreground with `c1` is foreground with `c2` and is left as it was by both
calls. -/
theorem remove_background_threshold_monotone (other : video_frame) (depth : depth_frame)
    (depth_scale c1 c2 : F32) (hle : F32.le c1 c2 = true) :
    (∀ sample, is_background depth_scale c1 sample = false →
      is_background depth_scale c2 sample = false) ∧
    (∀ (p : List Nat) (i sample : Nat), depth.data[i]? = some sample →
      is_background depth_scale c1 sample = false →
      pixel_body depth.data depth_scale c1 other.bytes_per_pixel p i = some p ∧
        pixel_body depth.data depth_scale c2 other.bytes_per_pixel p i = some p) ∧
    (depth.data.length = other.width * other.height →
      other.data.length = other.width * other.height * other.bytes_per_pixel →
      other.width * other.height ≤ INT_MAX →
      (other.width * other.height - 1) * other.bytes_per_pixel ≤ INT_MAX →
      ∃ out1 out2, remove_background other depth depth_scale c1 = some out1 ∧
        remove_background other depth depth_scale c2 = some out2 ∧
        ∀ i, i < other.width * other.height →
          is_background depth_scale c1 (depth.data.getD i 0) = false →
            is_background depth_scale c2 (depth.data.getD i 0) = false ∧
              out1.pixel i = other.pixel i ∧ out2.pixel i = other.pixel i) := by
  refine ⟨fun _ hfg => is_background_mono hle hfg, fun p i sample hs hfg => ?_,
    fun hdepth hcolor hpixels hoffset => ?_⟩
  · exact ⟨pixel_body_foreground other.bytes_per_pixel p hs hfg,
      pixel_body_foreground other.bytes_per_pixel p hs (is_background_mono hle hfg)⟩
  · obtain ⟨out1, h1, _, _, _, _, hp1⟩ := remove_background_pixels other depth depth_scale c1
      (by omega) (by omega) hpixels hoffset
    obtain ⟨out2, h2, _, _, _, _, hp2⟩ := remove_background_pixels other depth depth_scale c2
      (by omega) (by omega) hpixels hoffset
    refine ⟨out1, out2, h1, h2, fun i hi hfg => ?_⟩
    have hfg2 := is_background_mono hle hfg
    refine ⟨hfg2, ?_, ?_⟩
    · rw [hp1 i hi, if_neg (by rw [hfg]; exact Bool.noConfusion)]
    · rw [hp2 i hi, if_neg (by rw [hfg2]; exact Bool.noConfusion)]

/-- The scenario of the specification with the thresholds 1.5 and 10.0, for
claim C3. -/
theorem remove_background_threshold_monotone_witness :
    (F32.le F32.one_and_half F32.ten = true ∧
      scenario_depth.data.length = scenario_color.width * scenario_color.height ∧
      scenario_color.data.length
        = scenario_color.width * scenario_color.height * scenario_color.bytes_per_pixel ∧
      scenario_color.width * scenario_color.height ≤ INT_MAX ∧
      (scenario_color.width * scenario_color.height - 1) * scenario_color.bytes_per_pixel
        ≤ INT_MAX ∧
      is_background F32.milli F32.one_and_half (scenario_depth.data.getD 0 0) = false) ∧
    ∃ out1 out2,
      remove_background scenario_color scenario_depth F32.milli F32.one_and_half = some out1 ∧
      remove_background scenario_color scenario_depth F32.milli F32.ten = some out2 ∧
      ∀ i, i < scenario_color.width * scenario_color.height →
        is_background F32.milli F32.one_and_half (scenario_depth.data.getD i 0) = false →
          is_background F32.milli F32.ten (scenario_depth.data.getD i 0) = false ∧
            out1.pixel i = scenario_color.pixel i ∧ out2.pixel i = scenario_color.pixel i :=
  ⟨⟨by decide, by decide, by decide, by decide, by decide, by decide⟩,
    (remove_background_threshold_monotone scenario_color scenario_depth F32.milli
      F32.one_and_half F32.ten (by decide)).2.2 (by decide) (by decide) (by decide)
      (by decide)⟩

/-- Claim C4, as stated, fails: a colour frame of 1 pixel and a depth frame of 2
pixels are accepted, the call returns and the colour byte is overwritten. -/
theorem remove_background_accepts_mismatch :
    one_pixel_color.width * one_pixel_color.height
        ≠ two_pixel_depth.width * two_pixel_depth.height ∧
      one_pixel_color.data.length ≠ two_pixel_depth.data.length ∧
      remove_background one_pixel_color two_pixel_depth F32.milli F32.one
        = some { one_pixel_color with data := [0x99] } ∧
      remove_background one_pixel_color two_pixel_depth F32.milli F32.one
        ≠ some one_pixel_color := by
  decide

/-- Claim C4, amended: `remove_background` compares no dimensions. The width and
height of the depth frame are never read, and as soon as the depth buffer holds
at least `W*H` samples and the colour buffer at least `W*H*bpp` bytes (`W`, `H`,
`bpp` those of the colour frame), with the pixel count `W*H` and the last byte
offset `(W*H - 1) * bpp` within `INT_MAX`, the call returns and treats every
pixel `i < W*H` according to the depth sample `i`. -/
theorem remove_background_no_dimension_check (other : video_frame) (depth : depth_frame)
    (depth_scale clipping_dist : F32)
    (hdepth : other.width * other.height ≤ depth.data.length)
    (hcolor : other.width * other.height * other.bytes_per_pixel ≤ other.data.length)
    (hpixels : other.width * other.height ≤ INT_MAX)
    (hoffset : (other.width * other.height - 1) * other.bytes_per_pixel ≤ INT_MAX) :
    (∀ w h, remove_background other { depth with width := w, height := h } depth_scale
        clipping_dist = remove_background other depth depth_scale clipping_dist) ∧
    ∃ out, remove_background other depth depth_scale clipping_dist = some out ∧
      out.width = other.width ∧ out.height = other.height ∧
      out.bytes_per_pixel = other.bytes_per_pixel ∧
      out.data.length = other.data.length ∧
      ∀ i, i < other.width * other.height →
        out.pixel i =
          if is_background depth_scale clipping_dist (depth.data.getD i 0) = true
          then List.replicate other.bytes_per_pixel 0x99 else other.pixel i :=
  ⟨fun _ _ => rfl,
    remove_background_pixels other depth depth_scale clipping_dist hdepth hcolor hpixels
      hoffset⟩

/-- A colour frame of 1 pixel with a depth frame of 2 pixels, for claim C4. -/
theorem remove_background_no_dimension_check_witness :
    (one_pixel_color.width * one_pixel_color.height ≤ two_pixel_depth.data.length ∧
      one_pixel_color.width * one_pixel_color.height * one_pixel_color.bytes_per_pixel
        ≤ one_pixel_color.data.length ∧
      one_pixel_color.width * one_pixel_color.height ≤ INT_MAX ∧
      (one_pixel_color.width * one_pixel_color.height - 1) * one_pixel_color.bytes_per_pixel
        ≤ INT_MAX) ∧
    (∀ w h, remove_background one_pixel_color { two_pixel_depth with width := w, height := h }
        F32.milli F32.one = remove_background one_pixel_color two_pixel_depth F32.milli F32.one) ∧
    ∃ out, remove_background one_pixel_color two_pixel_depth F32.milli F32.one = some out ∧
      out.width = one_pixel_color.width ∧ out.height = one_pixel_color.height ∧
      out.bytes_per_pixel = one_pixel_color.bytes_per_pixel ∧
      out.data.length = one_pixel_color.data.length ∧
      ∀ i, i < one_pixel_color.width * one_pixel_color.height →
        out.pixel i =
          if is_background F32.milli F32.one (two_pixel_depth.data.getD i 0) = true
          then List.replicate one_pixel_color.bytes_per_pixel 0x99
          else one_pixel_color.pixel i :=
  ⟨⟨by decide, by decide, by decide, by decide⟩,
    remove_background_no_dimension_check one_pixel_color two_pixel_depth F32.milli F32.one
      (by decide) (by decide) (by decide) (by decide)⟩

/-- Claim C5, as stated, fails: with no detected face the threshold passed to
`remove_background` is not `10.0f`; it is the larger number `10800333 * 2^-20`. -/
theorem frame_clipping_arg_not_ten :
    frame_clipping_arg [] (fun _ _ => F32.zero) = some (F32.fin false 10800333 129) ∧
      frame_clipping_arg [] (fun _ _ => F32.zero) ≠ some F32.ten ∧
      F32.lt F32.ten (F32.fin false 10800333 129) = true := by
  decide

/-- Claim C5, amended: with no detected face (`shapes` empty) the variable
`depth_clipping_distance` keeps its initial value `10.0f`, and the threshold
passed to `remove_background` is `10.0f + 0.30f`, the `float`
`10800333 * 2^-20` (about 10.3), whatever the depth frame. -/
theorem frame_clipping_arg_no_face (get_distance : Int → Int → F32) :
    frame_clipping_arg [] get_distance = some (F32.add F32.ten F32.margin) ∧
      F32.add F32.ten F32.margin = F32.fin false 10800333 129 :=
  ⟨rfl, by decide⟩

/-- Claim C6, as stated, fails twice. The scale `+infinity` is positive and the
threshold 1.0 is positive, yet the pixel of depth sample 0 keeps its colour
(`+infinity * 0` is a NaN, and every comparison with a NaN is false). And on
the frame of 32769 x 1 pixels of 65536 bytes, with the finite positive scale
0.001 and the threshold 1.5, pixel 32768 has depth sample 0 but its byte offset
`2^31` overflows `int`: the call yields no colour buffer. -/
theorem zero_sample_not_always_sentinel :
    ((F32.inf false).valid = true ∧
      F32.lt F32.zero (F32.inf false) = true ∧ F32.lt F32.zero F32.one = true ∧
      one_pixel_depth.data.getD 0 0 = 0 ∧
      remove_background one_pixel_color one_pixel_depth (F32.inf false) F32.one
        = some one_pixel_color ∧
      one_pixel_color.pixel 0 ≠ List.replicate one_pixel_color.bytes_per_pixel 0x99) ∧
    (F32.milli.isFinite = true ∧ F32.lt F32.zero F32.milli = true ∧
      F32.lt F32.zero F32.one_and_half = true ∧
      large_depth.data.length = large_color.width * large_color.height ∧
      large_color.data.length
        = large_color.width * large_color.height * large_color.bytes_per_pixel ∧
      32768 < large_color.width * large_color.height ∧
      large_depth.data.getD 32768 0 = 0 ∧
      remove_background large_color large_depth F32.milli F32.one_and_half = none) :=
  ⟨by decide,
    by decide, by decide, by decide, large_frame_sizes.2.1, large_frame_sizes.2.2.1,
    large_frame_sizes.2.2.2.1, large_frame_sizes.2.2.2.2.1,
    large_frame_undefined F32.milli F32.one_and_half (by decide)⟩

/-- Claim C6, amended (invalid-depth invariance): for every finite positive
`depth_scale` and every `clipping_dist > 0`, on a frame of matching buffers
whose pixel count `W*H` and last byte offset `(W*H - 1) * bpp` stay within
`INT_MAX`, the call returns and every pixel whose depth sample is 0 is
classified background and has all its `bpp` bytes equal to `0x99` (the proof
uses the finiteness of the scale, not its sign nor that of the threshold). -/
theorem remove_background_zero_sample (other : video_frame) (depth : depth_frame)
    (depth_scale clipping_dist : F32)
    (hdepth : depth.data.length = other.width * other.height)
    (hcolor : other.data.length = other.width * other.height * other.bytes_per_pixel)
    (hpixels : other.width * other.height ≤ INT_MAX)
    (hoffset : (other.width * other.height - 1) * other.bytes_per_pixel ≤ INT_MAX)
    (hfinite : depth_scale.isFinite = true)
    (_hscale : F32.lt F32.zero depth_scale = true)
    (_hclip : F32.lt F32.zero clipping_dist = true) :
    ∃ out, remove_background other depth depth_scale clipping_dist = some out ∧
      out.bytes_per_pixel = other.bytes_per_pixel ∧
      ∀ i, i < other.width * other.height → depth.data.getD i 0 = 0 →
        is_background depth_scale clipping_dist (depth.data.getD i 0) = true ∧
          out.pixel i = List.replicate other.bytes_per_pixel 0x99 := by
  obtain ⟨out, h, _, _, hb, _, hp⟩ := remove_background_pixels other depth depth_scale
    clipping_dist (by omega) (by omega) hpixels hoffset
  refine ⟨out, h, hb, fun i hi h0 => ?_⟩
  have hbg : is_background depth_scale clipping_dist (depth.data.getD i 0) = true :=
    is_background_zero_sample clipping_dist hfinite (by rw [h0])
  exact ⟨hbg, by rw [hp i hi, if_pos hbg]⟩

/-- The scenario of the specification, whose second depth sample is 0, for
claim C6. -/
theorem remove_background_zero_sample_witness :
    (scenario_depth.data.length = scenario_color.width * scenario_color.height ∧
      scenario_color.data.length
        = scenario_color.width * scenario_color.height * scenario_color.bytes_per_pixel ∧
      scenario_color.width * scenario_color.height ≤ INT_MAX ∧
      (scenario_color.width * scenario_color.height - 1) * scenario_color.bytes_per_pixel
        ≤ INT_MAX ∧
      F32.milli.isFinite = true ∧ F32.lt F32.zero F32.milli = true ∧
      F32.lt F32.zero F32.one_and_half = true ∧ scenario_depth.data.getD 1 0 = 0) ∧
    ∃ out, remove_background scenario_color scenario_depth F32.milli F32.one_and_half
        = some out ∧
      out.bytes_per_pixel = scenario_color.bytes_per_pixel ∧
      ∀ i, i < scenario_color.width * scenario_color.height →
        scenario_depth.data.getD i 0 = 0 →
          is_background F32.milli F32.one_and_half (scenario_depth.data.getD i 0) = true ∧
            out.pixel i = List.replicate scenario_color.bytes_per_pixel 0x99 :=
  ⟨⟨by decide, by decide, by decide, by decide, by decide, by decide, by decide, by decide⟩,
    remove_background_zero_sample scenario_color scenario_depth F32.milli F32.one_and_half
      (by decide) (by decide) (by decide) (by decide) (by decide) (by decide) (by decide)⟩

/-- Claim C7, as stated, fails twice. The scale `+infinity` is positive and the
threshold `0` is `<= 0`, yet the pixel of depth sample 0 keeps its colour. And
on the frame of 32769 x 1 pixels of 65536 bytes, with the finite positive scale
0.001 and the threshold `0`, the byte offset `2^31` of pixel 32768 overflows
`int`: the call yields no colour buffer. -/
theorem nonpos_threshold_not_always_sentinel :
    ((F32.inf false).valid = true ∧
      F32.lt F32.zero (F32.inf false) = true ∧ F32.le F32.zero F32.zero = true ∧
      remove_background one_pixel_color one_pixel_depth (F32.inf false) F32.zero
        = some one_pixel_color ∧
      one_pixel_color.data ≠ List.replicate
        (one_pixel_color.width * one_pixel_color.height * one_pixel_color.bytes_per_pixel)
        0x99) ∧
    (F32.milli.isFinite = true ∧ F32.lt F32.zero F32.milli = true ∧
      F32.le F32.zero F32.zero = true ∧
      large_depth.data.length = large_color.width * large_color.height ∧
      large_color.data.length
        = large_color.width * large_color.height * large_color.bytes_per_pixel ∧
      remove_background large_color large_depth F32.milli F32.zero = none) :=
  ⟨by decide,
    by decide, by decide, by decide, large_frame_sizes.2.1, large_frame_sizes.2.2.1,
    large_frame_undefined F32.milli F32.zero (by decide)⟩

/-- Claim C7, amended (a threshold `<= 0` clips everything): for every finite
positive `depth_scale` and every `clipping_dist <= 0`, every sample, zero or
not, is classified background, and on a frame of matching buffers whose pixel
count `W*H` and last byte offset `(W*H - 1) * bpp` stay within `INT_MAX` the
call returns the colour frame with all its `W*H*bpp` bytes equal to `0x99`. -/
theorem remove_background_nonpos_threshold (other : video_frame) (depth : depth_frame)
    (depth_scale clipping_dist : F32)
    (hdepth : depth.data.length = other.width * other.height)
    (hcolor : other.data.length = other.width * other.height * other.bytes_per_pixel)
    (hpixels : other.width * other.height ≤ INT_MAX)
    (hoffset : (other.width * other.height - 1) * other.bytes_per_pixel ≤ INT_MAX)
    (hfinite : depth_scale.isFinite = true)
    (hscale : F32.lt F32.zero depth_scale = true)
    (hclip : F32.le clipping_dist F32.zero = true) :
    (∀ sample, is_background depth_scale clipping_dist sample = true) ∧
      remove_background other depth depth_scale clipping_dist = some { other with
        data := List.replicate (other.width * other.height * other.bytes_per_pixel) 0x99 } :=
  ⟨is_background_nonpos_threshold hfinite hscale hclip,
    remove_background_all other depth depth_scale clipping_dist hdepth hcolor hpixels hoffset
      (is_background_nonpos_threshold hfinite hscale hclip)⟩

/-- The scenario of the specification with the threshold `-1.0`, for claim C7. -/
theorem remove_background_nonpos_threshold_witness :
    (scenario_depth.data.length = scenario_color.width * scenario_color.height ∧
      scenario_color.data.length
        = scenario_color.width * scenario_color.height * scenario_color.bytes_per_pixel ∧
      scenario_color.width * scenario_color.height ≤ INT_MAX ∧
      (scenario_color.width * scenario_color.height - 1) * scenario_color.bytes_per_pixel
        ≤ INT_MAX ∧
      F32.milli.isFinite = true ∧ F32.lt F32.zero F32.milli = true ∧
      F32.le (F32.fin true 1 149) F32.zero = true) ∧
    (∀ sample, is_background F32.milli (F32.fin true 1 149) sample = true) ∧
      remove_background scenario_color scenario_depth F32.milli (F32.fin true 1 149)
        = some { scenario_color with
          data := List.replicate (scenario_color.width * scenario_color.height
            * scenario_color.bytes_per_pixel) 0x99 } :=
  ⟨⟨by decide, by decide, by decide, by decide, by decide, by decide, by decide⟩,
    remove_background_nonpos_threshold scenario_color scenario_depth F32.milli
      (F32.fin true 1 149) (by decide) (by decide) (by decide) (by decide) (by decide)
      (by decide) (by decide)⟩

/-- Claim C8 (row-order independence): the loop body for row `y` changes no byte
outside `[y*W*bpp, (y+1)*W*bpp)`, its result is the same for two depth buffers
that agree on the samples of row `y`, and running the rows in the order of any
permutation of `0..H-1` gives the same result as running them in ascending
order, be it a colour buffer or undefined behaviour. -/
theorem remove_background_row_order (other : video_frame) (depth : depth_frame)
    (depth_scale clipping_dist : F32) :
    (∀ (y : Nat) (p q : List Nat) (k : Nat),
      row_body depth.data depth_scale clipping_dist other.width other.bytes_per_pixel p y
        = some q →
      (k < y * other.width * other.bytes_per_pixel ∨
        (y + 1) * other.width * other.bytes_per_pixel ≤ k) →
      q[k]? = p[k]?) ∧
    (∀ (y : Nat) (p : List Nat) (depth2 : depth_frame),
      (∀ x, x < other.width →
        depth2.data[y * other.width + x]? = depth.data[y * other.width + x]?) →
      row_body depth2.data depth_scale clipping_dist other.width other.bytes_per_pixel p y
        = row_body depth.data depth_scale clipping_dist other.width other.bytes_per_pixel p y) ∧
    (∀ rows : List Nat, rows.Perm (List.range other.height) →
      remove_background_rows rows other depth depth_scale clipping_dist
        = remove_background other depth depth_scale clipping_dist) :=
  ⟨fun _ _ _ _ h hk => row_body_frame h hk,
    fun _ p _ h => row_body_depends depth_scale clipping_dist other.bytes_per_pixel p h,
    fun _ hperm => rows_congr other depth depth_scale clipping_dist (fun _ => hperm.mem_iff)⟩

/-- A frame of two rows run in the order 1, 0, for claim C8. -/
theorem remove_background_row_order_witness :
    [1, 0].Perm (List.range two_row_color.height) ∧
      remove_background_rows [1, 0] two_row_color two_row_depth F32.milli F32.one_and_half
        = remove_background two_row_color two_row_depth F32.milli F32.one_and_half ∧
      remove_background_rows [1, 0] two_row_color two_row_depth F32.milli F32.one_and_half
        = some { two_row_color with data := [10, 0x99] } :=
  ⟨List.Perm.swap 0 1 [],
    (remove_background_row_order two_row_color two_row_depth F32.milli F32.one_and_half).2.2
      [1, 0] (List.Perm.swap 0 1 []),
    by decide⟩

/-- Claim C10, as stated, fails twice. The scale `-infinity` is `<= 0`, yet the
pixel of depth sample 0 keeps its colour (`-infinity * 0` is a NaN). And on the
frame of 32769 x 1 pixels of 65536 bytes, with the finite scale `-0.001`, the
byte offset `2^31` of pixel 32768 overflows `int`: the call yields no colour
buffer. -/
theorem nonpos_scale_not_always_sentinel :
    ((F32.inf true).valid = true ∧ F32.le (F32.inf true) F32.zero = true ∧
      remove_background one_pixel_color one_pixel_depth (F32.inf true) F32.one
        = some one_pixel_color ∧
      one_pixel_color.data ≠ List.replicate
        (one_pixel_color.width * one_pixel_color.height * one_pixel_color.bytes_per_pixel)
        0x99) ∧
    ((F32.fin true 8589935 116).isFinite = true ∧
      F32.le (F32.fin true 8589935 116) F32.zero = true ∧
      large_depth.data.length = large_color.width * large_color.height ∧
      large_color.data.length
        = large_color.width * large_color.height * large_color.bytes_per_pixel ∧
      remove_background large_color large_depth (F32.fin true 8589935 116) F32.one = none) :=
  ⟨by decide,
    by decide, by decide, large_frame_sizes.2.1, large_frame_sizes.2.2.1,
    large_frame_undefined (F32.fin true 8589935 116) F32.one (by decide)⟩

/-- Claim C10, amended (a scale `<= 0` degrades to all background): for every
finite `depth_scale <= 0`, every depth buffer and every `clipping_dist`, every
sample is classified background (`depth_scale * sample <= 0`), and on a frame of
matching buffers whose pixel count `W*H` and last byte offset `(W*H - 1) * bpp`
stay within `INT_MAX` the call returns the colour frame with all its `W*H*bpp`
bytes equal to `0x99`. -/
theorem remove_background_nonpos_scale (other : video_frame) (depth : depth_frame)
    (depth_scale clipping_dist : F32)
    (hdepth : depth.data.length = other.width * other.height)
    (hcolor : other.data.length = other.width * other.height * other.bytes_per_pixel)
    (hpixels : other.width * other.height ≤ INT_MAX)
    (hoffset : (other.width * other.height - 1) * other.bytes_per_pixel ≤ INT_MAX)
    (hfinite : depth_scale.isFinite = true)
    (hscale : F32.le depth_scale F32.zero = true) :
    (∀ sample, F32.le (F32.mul depth_scale (F32.ofUInt16 sample)) F32.zero = true) ∧
      remove_background other depth depth_scale clipping_dist = some { other with
        data := List.replicate (other.width * other.height * other.bytes_per_pixel) 0x99 } :=
  ⟨mul_sample_nonpos hfinite hscale,
    remove_background_all other depth depth_scale clipping_dist hdepth hcolor hpixels hoffset
      (is_background_nonpos_scale clipping_dist hfinite hscale)⟩

/-- The scenario of the specification with the scale `-0.001`, for claim C10. -/
theorem remove_background_nonpos_scale_witness :
    (scenario_depth.data.length = scenario_color.width * scenario_color.height ∧
      scenario_color.data.length
        = scenario_color.width * scenario_color.height * scenario_color.bytes_per_pixel ∧
      scenario_color.width * scenario_color.height ≤ INT_MAX ∧
      (scenario_color.width * scenario_color.height - 1) * scenario_color.bytes_per_pixel
        ≤ INT_MAX ∧
      (F32.fin true 8589935 116).isFinite = true ∧
      F32.le (F32.fin true 8589935 116) F32.zero = true) ∧
    (∀ sample,
      F32.le (F32.mul (F32.fin true 8589935 116) (F32.ofUInt16 sample)) F32.zero = true) ∧
      remove_background scenario_color scenario_depth (F32.fin true 8589935 116)
          F32.one_and_half
        = some { scenario_color with
          data := List.replicate (scenario_color.width * scenario_color.height
            * scenario_color.bytes_per_pixel) 0x99 } :=
  ⟨⟨by decide, by decide, by decide, by decide, by decide, by decide⟩,
    remove_background_nonpos_scale scenario_color scenario_depth (F32.fin true 8589935 116)
      F32.one_and_half (by decide) (by decide) (by decide) (by decide) (by decide)
      (by decide)⟩

end RsDlibCv
